import Mathlib

/-!
Verification of the Heavenly Feeding authoritative game server
(`src/server/index.js`, rooms-based variant).  The JavaScript state and
operations are shallowly embedded: numbers become real numbers, the
`Map` of players becomes an insertion-ordered list, foods become a list,
JS objects used as dictionaries (`mouthTimers`) become total functions
with default `0`, and in-place mutation becomes functional update.
-/

namespace HF

noncomputable section

open scoped Classical

/-! ### Constants (`src/server/index.js`, lines 399-419) -/

def WIDTH : ℝ := 960
def HEIGHT : ℝ := 540
def TICK_RATE : ℝ := 60
def DT : ℝ := 1 / TICK_RATE
def MOVE_SPEED : ℝ := 220
def MAX_ANGULAR_SPEED : ℝ := 4.5
def CHOPSTICK_LENGTH : ℝ := 181
def CONE_RADIUS : ℝ := 180
def CONE_HALF_ANGLE : ℝ := Real.pi / 3
def PICKUP_CLOSE_RADIUS : ℝ := 26
def MOUTH_RADIUS : ℝ := 30
def MOUTH_OFFSET_X : ℝ := 0
def MOUTH_OFFSET_Y_LEFT : ℝ := 84
def MOUTH_OFFSET_Y_RIGHT : ℝ := 67
def EAT_TIME : ℝ := 0.4
def MAX_FOOD : ℕ := 8
def SPAWN_INTERVAL : ℝ := 2.0
def GRAVITY : ℝ := 170
def MAX_FULLNESS : ℝ := 100

/-! ### Angle utilities (`wrapAngle`, `rotateTowards`, lines 470-481)

`wrapAngle` in the source is a loop that adds or subtracts `2*pi`
until the angle lies in `(-pi, pi]`; over the reals this loop computes
the closed form below (the unique representative of the angle modulo
`2*pi` in `(-pi, pi]`), which is what we define and then characterise
by the loop's two invariants: the result lies in `(-pi, pi]` and
differs from the input by an integer multiple of `2*pi`. -/

def wrapAngle (angle : ℝ) : ℝ :=
  angle - 2 * Real.pi * ⌈(angle - Real.pi) / (2 * Real.pi)⌉

def rotateTowards (current target maxDelta : ℝ) : ℝ :=
  wrapAngle (current + max (-maxDelta) (min maxDelta (wrapAngle (target - current))))

def clamp (value lo hi : ℝ) : ℝ := max lo (min hi value)

/-! ### Data model (`src/server/index.js`, lines 442-455 and 776-794)

`Room.players` is the insertion-ordered `Map` of players, `Room.foods`
the food array.  `Food.mouthTimers` embeds the JS dictionary object
with its `|| 0` default as a total function.  The transport handle
(`ws`) carried by a JS player is not part of the simulation state. -/

structure Input where
  moveX : ℝ
  moveY : ℝ
  aim : ℝ
  release : Bool

structure Player where
  id : String
  side : String
  x : ℝ
  y : ℝ
  angle : ℝ
  targetAngle : ℝ
  fullness : ℝ
  mouthOpenUntil : ℝ
  holdingFoodId : Option ℕ
  ready : Bool
  input : Input

structure Food where
  id : ℕ
  x : ℝ
  y : ℝ
  vx : ℝ
  vy : ℝ
  value : ℝ
  state : String
  heldBy : Option String
  mouthTimers : String → ℝ

structure Room where
  id : String
  players : List Player
  foods : List Food
  nextFoodId : ℕ
  lastSpawnTime : ℝ
  time : ℝ
  gameOver : Bool
  winnerId : Option String
  loserId : Option String
  started : Bool

/-! ### Geometry helpers (lines 504-518) -/

def tipPosition (p : Player) : ℝ × ℝ :=
  (p.x + Real.cos p.angle * CHOPSTICK_LENGTH,
   p.y + Real.sin p.angle * CHOPSTICK_LENGTH)

def mouthPosition (p : Player) : ℝ × ℝ :=
  (p.x + MOUTH_OFFSET_X,
   p.y - (if p.side = "right" then MOUTH_OFFSET_Y_RIGHT else MOUTH_OFFSET_Y_LEFT))

/-- Mouth proximity test of `handleEating` (lines 593-595): straight-line
distance from the food to the player's mouth anchor is within `MOUTH_RADIUS`. -/
def inMouth (p : Player) (f : Food) : Prop :=
  Real.sqrt ((f.x - (mouthPosition p).1) ^ 2 + (f.y - (mouthPosition p).2) ^ 2)
    ≤ MOUTH_RADIUS

/-! ### Eating resolution (`handleEating`, lines 589-627)

The source walks the foods array; for each food it walks the players,
updating that food's per-player dwell timer in place, and consumes the
food (then returns) as soon as one updated timer reaches `EAT_TIME`.
`playersLoop` is the inner loop over players, `foodsLoop` the outer loop
over foods, `consume` the body of the `if (food.mouthTimers[...] >= EAT_TIME)`
block.  The eat event of `foodsLoop` carries the food as it stood when the
scan reached it; `playersLoop` rewrites only `mouthTimers`, and `consume`
reads only the untouched fields `id`, `value` and `heldBy` of the eaten
food, so this is observationally the same object the source consumes. -/

def setTimer (f : Food) (pid : String) (t : ℝ) : Food :=
  { f with mouthTimers := fun j => if j = pid then t else f.mouthTimers j }

/-- The dwell-timer value a player's scan writes for a food this tick:
incremented while in the mouth region, reset to zero otherwise (lines 596-601). -/
def dwellAfter (dt : ℝ) (p : Player) (f : Food) : ℝ :=
  if inMouth p f then f.mouthTimers p.id + dt else 0

def playersLoop (dt : ℝ) : Food → List Player → Food × Option Player
  | f, [] => (f, none)
  | f, p :: ps =>
    let t := if inMouth p f then f.mouthTimers p.id + dt else 0
    let f2 := setTimer f p.id t
    if EAT_TIME ≤ t then (f2, some p) else playersLoop dt f2 ps

def foodsLoop (dt : ℝ) (players : List Player) : List Food → List Food × Option (Player × Food)
  | [] => ([], none)
  | f :: rest =>
    match playersLoop dt f players with
    | (f2, some p) => (f2 :: rest, some (p, f))
    | (f2, none) =>
      let r := foodsLoop dt players rest
      (f2 :: r.1, r.2)

def consume (room : Room) (eater : Player) (food : Food) : Room :=
  let newFull := eater.fullness + food.value
  let players1 := room.players.map fun p =>
    if p.id = eater.id then
      { p with fullness := newFull, mouthOpenUntil := room.time + 0.35 }
    else p
  let players2 := match food.heldBy with
    | some h => players1.map fun p => if p.id = h then { p with holdingFoodId := none } else p
    | none => players1
  let foods2 := room.foods.filter fun f2 => f2.id ≠ food.id
  if MAX_FULLNESS ≤ newFull then
    { room with
      players := players2.map fun p => { p with ready := false },
      foods := foods2,
      gameOver := true,
      started := false,
      loserId := some eater.id,
      winnerId := (players2.find? fun p => p.id ≠ eater.id).map Player.id }
  else
    { room with players := players2, foods := foods2 }

def handleEating (room : Room) (dt : ℝ) : Room :=
  match foodsLoop dt room.players room.foods with
  | (fs, none) => { room with foods := fs }
  | (fs, some (eater, food)) => consume { room with foods := fs } eater food

/-! ### Ready toggling and match start (lines 724-759 and 825-830)

The message handler for `{type:"ready"}` assigns the coerced boolean to
the sender's `ready` flag and, when `allReady` holds, performs the full
reset-and-start `startRoom`.  The source has no `room.started` guard on
this branch (unlike the `input` branch). -/

def allReady (room : Room) : Bool :=
  if room.players.length < 2 then false
  else room.players.all fun p => p.ready

/-- Per-player body of `startRoom`'s loop (lines 738-758). -/
def startPlayer (p : Player) : Player :=
  if p.side = "left" then
    { p with
      fullness := 0, holdingFoodId := none, mouthOpenUntil := 0,
      x := 180, y := HEIGHT / 2, angle := 0, targetAngle := 0,
      input := { moveX := 0, moveY := 0, aim := 0, release := false } }
  else
    { p with
      fullness := 0, holdingFoodId := none, mouthOpenUntil := 0,
      x := WIDTH - 180, y := HEIGHT / 2, angle := Real.pi, targetAngle := Real.pi,
      input := { moveX := 0, moveY := 0, aim := Real.pi, release := false } }

def startRoom (room : Room) : Room :=
  { room with
    started := true, gameOver := false, winnerId := none, loserId := none,
    time := 0, foods := [], nextFoodId := 1, lastSpawnTime := 0,
    players := room.players.map startPlayer }

/-- The assignment `player.ready = Boolean(msg.ready)` (line 826), with the
boolean coercion already applied. -/
def applyReadyFlag (room : Room) (pid : String) (b : Bool) : Room :=
  { room with players := room.players.map fun p =>
      if p.id = pid then { p with ready := b } else p }

def handleReady (room : Room) (pid : String) (b : Bool) : Room :=
  let mid := applyReadyFlag room pid b
  if allReady mid then startRoom mid else mid

/-! ### Pickup (lines 520-542) -/

/-- JS `Math.atan2 dy dx` over the reals, as the argument of the complex
number `dx + dy*i`, valued in `(-pi, pi]`. -/
def atan2 (dy dx : ℝ) : ℝ := Complex.arg ⟨dx, dy⟩

/-- The `dist` local of `isInCone`: distance from the food to the chopstick
tip. -/
def distTip (p : Player) (f : Food) : ℝ :=
  Real.sqrt ((f.x - (tipPosition p).1) ^ 2 + (f.y - (tipPosition p).2) ^ 2)

def isInCone (p : Player) (f : Food) : Bool :=
  let dx := f.x - (tipPosition p).1
  let dy := f.y - (tipPosition p).2
  let dist := Real.sqrt (dx ^ 2 + dy ^ 2)
  if CONE_RADIUS < dist then false
  else if dist ≤ PICKUP_CLOSE_RADIUS then true
  else decide (|wrapAngle (atan2 dy dx - p.angle)| ≤ CONE_HALF_ANGLE)

def pickedUp (f : Food) (pid : String) : Food :=
  { f with state := "held", heldBy := some pid, mouthTimers := fun _ => 0 }

/-- The `room.foods.find(...)` scan of `tryPickup` together with the in-place
mutation of the found candidate: returns the rewritten list and the picked
food's id, or `none` when no food matches. -/
def pickupScan (p : Player) : List Food → Option (List Food × ℕ)
  | [] => none
  | f :: rest =>
    if f.state = "free" ∧ isInCone p f = true then some (pickedUp f p.id :: rest, f.id)
    else match pickupScan p rest with
      | some (rest2, fid) => some (f :: rest2, fid)
      | none => none

def tryPickup (room : Room) (p : Player) : Room :=
  if p.holdingFoodId.isSome then room
  else match pickupScan p room.foods with
    | none => room
    | some (fs, fid) =>
      { room with
        foods := fs,
        players := room.players.map fun q =>
          if q.id = p.id then { q with holdingFoodId := some fid } else q }

/-! ### Free-food physics (`updateFoods`, lines 558-571)

`Math.random()` draws are modeled by an oracle stream `r : ℕ → ℝ` of
values in `[0, 1)` together with a cursor; a respawn consumes two draws
(new x, then new vx). -/

def stepFreeFood (r : ℕ → ℝ) (dt : ℝ) (f : Food) (k : ℕ) : Food × ℕ :=
  if f.state = "held" then (f, k)
  else
    let vy := f.vy + GRAVITY * dt
    let x := f.x + f.vx * dt
    let y := f.y + vy * dt
    if HEIGHT + 60 < y then
      ({ f with
         x := 80 + r k * (WIDTH - 160), y := -20,
         vx := (r (k + 1) - 0.5) * 16, vy := 0 }, k + 2)
    else
      ({ f with x := x, y := y, vy := vy }, k)

def foodsPhysics (r : ℕ → ℝ) (dt : ℝ) : List Food → ℕ → List Food × ℕ
  | [], k => ([], k)
  | f :: rest, k =>
    let s := stepFreeFood r dt f k
    let t := foodsPhysics r dt rest s.2
    (s.1 :: t.1, t.2)

def updateFoods (r : ℕ → ℝ) (k : ℕ) (room : Room) (dt : ℝ) : Room × ℕ :=
  let t := foodsPhysics r dt room.foods k
  ({ room with foods := t.1 }, t.2)

/-! ### Held-food tracking (`updateHeldFoods`, lines 573-587) -/

def easeHeld (p : Player) (f : Food) : Food :=
  let tip := tipPosition p
  { f with
    x := f.x + (tip.1 - f.x) * 0.35, y := f.y + (tip.2 - f.y) * 0.35,
    vx := 0, vy := 0 }

/-- In-place mutation of the first food with the given id (the object
returned by `room.foods.find`). -/
def easeFirst (p : Player) (fid : ℕ) : List Food → List Food
  | [] => []
  | f :: rest => if f.id = fid then easeHeld p f :: rest else f :: easeFirst p fid rest

def heldStep (q : Player) (foods : List Food) : Player × List Food :=
  match q.holdingFoodId with
  | none => (q, foods)
  | some fid =>
    match foods.find? fun f => f.id = fid with
    | none => ({ q with holdingFoodId := none }, foods)
    | some _ => (q, easeFirst q fid foods)

def heldLoop : List Player → List Food → List Player × List Food
  | [], foods => ([], foods)
  | q :: qs, foods =>
    let s := heldStep q foods
    let t := heldLoop qs s.2
    (s.1 :: t.1, t.2)

def updateHeldFoods (room : Room) : Room :=
  let t := heldLoop room.players room.foods
  { room with players := t.1, foods := t.2 }

/-! ### Disconnect handling (`ws.on("close")`, lines 833-846, and
`resetGameIfNeeded`, lines 701-715) -/

def resetGameIfNeeded (room : Room) : Room :=
  if room.players.length < 2 then
    { room with
      gameOver := false, winnerId := none, loserId := none,
      time := 0, started := false, foods := [], nextFoodId := 1,
      players := room.players.map fun p =>
        { p with ready := false, holdingFoodId := none } }
  else room

/-- In-place freeing of the first food with the given id (the object
returned by `room.foods.find` in the close handler). -/
def freeFirst (fid : ℕ) : List Food → List Food
  | [] => []
  | f :: rest =>
    if f.id = fid then { f with state := "free", heldBy := none } :: rest
    else f :: freeFirst fid rest

/-- The close handler: delete the player from the map, free the food its
captured player object still references (if any), then reset the room if
fewer than two players remain.  The registry-level deletion of an empty
room is outside the room state. -/
def handleClose (room : Room) (player : Player) : Room :=
  let players1 := room.players.filter fun q => q.id ≠ player.id
  let foods1 := match player.holdingFoodId with
    | some fid => freeFirst fid room.foods
    | none => room.foods
  resetGameIfNeeded { room with players := players1, foods := foods1 }

/-! ### Inbound input messages (lines 818-824)

A parsed JSON field is embedded as `JSVal`: JSON numbers are finite
reals, and a string is abstracted by its JS numeric-parse result
(`none` when `Number()` of it is NaN; strings parsing to infinities
are outside the model).  `toNumber` is JS `Number()` on these values
(`none` = NaN), and `numOr v fb` is the idiom `Number(v) || fb`,
whose fallback fires exactly on NaN and zero. -/

inductive JSVal where
  | vnull : JSVal
  | vundef : JSVal
  | vbool : Bool → JSVal
  | vnum : ℝ → JSVal
  | vstr : Option ℝ → JSVal
  | vobj : JSVal

def toNumber : JSVal → Option ℝ
  | .vnull => some 0
  | .vundef => none
  | .vbool b => some (if b then 1 else 0)
  | .vnum x => some x
  | .vstr p => p
  | .vobj => none

def numOr (v : JSVal) (fallback : ℝ) : ℝ :=
  match toNumber v with
  | some x => if x = 0 then fallback else x
  | none => fallback

/-- An `{type:"input"}` message; `release` carries the already-coerced
`Boolean(msg.release)`. -/
structure InputMsg where
  moveX : JSVal
  moveY : JSVal
  aim : JSVal
  release : Bool

def handleInput (room : Room) (pid : String) (m : InputMsg) : Room :=
  if room.started = false then room
  else
    { room with players := room.players.map fun p =>
        if p.id = pid then
          { p with input :=
            { moveX := numOr m.moveX 0, moveY := numOr m.moveY 0,
              aim := numOr m.aim p.input.aim, release := m.release } }
        else p }

/-! ### Concrete sample states used to instantiate theorems -/

def idleInput : Input :=
  { moveX := 0, moveY := 0, aim := 0, release := false }

def pAlice : Player :=
  { id := "a", side := "left", x := 180, y := 270, angle := 0, targetAngle := 0,
    fullness := 0, mouthOpenUntil := 0, holdingFoodId := none, ready := true,
    input := idleInput }

def pBob : Player :=
  { id := "b", side := "right", x := 780, y := 270, angle := Real.pi,
    targetAngle := Real.pi, fullness := 0, mouthOpenUntil := 0,
    holdingFoodId := none, ready := true,
    input := { moveX := 0, moveY := 0, aim := Real.pi, release := false } }

/-- A food sitting exactly on `pAlice`'s mouth anchor with its dwell timer
for every player already at `1`. -/
def fCake : Food :=
  { id := 1, x := 180, y := 186, vx := 0, vy := 0, value := 100, state := "free",
    heldBy := none, mouthTimers := fun _ => 1 }

def rMatch : Room :=
  { id := "lobby", players := [pAlice, pBob], foods := [fCake], nextFoodId := 2,
    lastSpawnTime := 0, time := 0, gameOver := false, winnerId := none,
    loserId := none, started := true }

def pBobUnready : Player := { pBob with ready := false }

def pAliceUnready : Player := { pAlice with ready := false }

/-- A waiting room where Alice is ready and Bob is not. -/
def rLobby : Room :=
  { id := "lobby", players := [pAlice, pBobUnready], foods := [], nextFoodId := 1,
    lastSpawnTime := 0, time := 0, gameOver := false, winnerId := none,
    loserId := none, started := false }

/-- A running room in which neither player is flagged ready. -/
def rRunning : Room :=
  { id := "lobby", players := [pAliceUnready, pBobUnready], foods := [],
    nextFoodId := 1, lastSpawnTime := 0, time := 0, gameOver := false,
    winnerId := none, loserId := none, started := true }

/-- A player whose held-food reference points at an absent food id. -/
def pHolder : Player := { pAlice with holdingFoodId := some 9 }

/-- A room whose only player carries a dangling held-food reference. -/
def rDangling : Room :=
  { id := "lobby", players := [pHolder], foods := [], nextFoodId := 1,
    lastSpawnTime := 0, time := 0, gameOver := false, winnerId := none,
    loserId := none, started := true }

/-- A free food resting exactly on `pAlice`'s chopstick tip. -/
def fSnack : Food :=
  { id := 5, x := 361, y := 270, vx := 0, vy := 0, value := 6, state := "free",
    heldBy := none, mouthTimers := fun _ => 0 }

def rPickup : Room :=
  { id := "lobby", players := [pAlice, pBob], foods := [fSnack], nextFoodId := 6,
    lastSpawnTime := 0, time := 0, gameOver := false, winnerId := none,
    loserId := none, started := true }

/-- A running single-player room whose player has stored aim `2`. -/
def pAim : Player :=
  { pAlice with input := { moveX := 0, moveY := 0, aim := 2, release := false } }

def rAim : Room :=
  { id := "lobby", players := [pAim], foods := [], nextFoodId := 1,
    lastSpawnTime := 0, time := 0, gameOver := false, winnerId := none,
    loserId := none, started := true }

/-- An input message whose `aim` field is the boolean `true` (not a number). -/
def msgBoolAim : InputMsg :=
  { moveX := JSVal.vnull, moveY := JSVal.vnull, aim := JSVal.vbool true,
    release := false }

/-- A free food already below the bottom respawn bound. -/
def fFalling : Food :=
  { id := 3, x := 100, y := 700, vx := 0, vy := 0, value := 6, state := "free",
    heldBy := none, mouthTimers := fun _ => 0 }

def rFall : Room :=
  { id := "lobby", players := [pAlice, pBob], foods := [fFalling], nextFoodId := 4,
    lastSpawnTime := 0, time := 0, gameOver := false, winnerId := none,
    loserId := none, started := true }

/-! ### Theorems -/

theorem two_pi_pos : (0 : ℝ) < 2 * Real.pi := by positivity

theorem wrapAngle_le (a : ℝ) : wrapAngle a ≤ Real.pi := by
  have h1 : (a - Real.pi) / (2 * Real.pi) ≤ (⌈(a - Real.pi) / (2 * Real.pi)⌉ : ℝ) :=
    Int.le_ceil _
  rw [div_le_iff₀ two_pi_pos] at h1
  unfold wrapAngle
  nlinarith [h1]

theorem wrapAngle_gt (a : ℝ) : -Real.pi < wrapAngle a := by
  have h2 : ((⌈(a - Real.pi) / (2 * Real.pi)⌉ : ℝ)) < (a - Real.pi) / (2 * Real.pi) + 1 :=
    Int.ceil_lt_add_one _
  have h3 : ((⌈(a - Real.pi) / (2 * Real.pi)⌉ : ℝ) - 1) * (2 * Real.pi) < a - Real.pi := by
    rw [← lt_div_iff₀ two_pi_pos]
    linarith
  unfold wrapAngle
  nlinarith [h3]

theorem wrapAngle_eq_self {a : ℝ} (h1 : -Real.pi < a) (h2 : a ≤ Real.pi) :
    wrapAngle a = a := by
  have hz : ⌈(a - Real.pi) / (2 * Real.pi)⌉ = 0 := by
    rw [Int.ceil_eq_zero_iff]
    constructor
    · rw [lt_div_iff₀ two_pi_pos]
      linarith
    · apply div_nonpos_of_nonpos_of_nonneg
      · linarith
      · linarith [two_pi_pos]
  unfold wrapAngle
  rw [hz]
  push_cast
  ring

theorem wrapAngle_add_int_mul (a : ℝ) (k : ℤ) :
    wrapAngle (a + 2 * Real.pi * k) = wrapAngle a := by
  unfold wrapAngle
  have hne : (2 * Real.pi) ≠ 0 := ne_of_gt two_pi_pos
  have harg : (a + 2 * Real.pi * k - Real.pi) / (2 * Real.pi)
      = (a - Real.pi) / (2 * Real.pi) + k := by
    field_simp
    ring
  rw [harg, Int.ceil_add_int]
  push_cast
  ring

theorem wrapAngle_sub_int (a : ℝ) :
    ∃ k : ℤ, wrapAngle a = a - 2 * Real.pi * k :=
  ⟨⌈(a - Real.pi) / (2 * Real.pi)⌉, rfl⟩

/-- C6: for all angles `current`, `target` and nonnegative `maxDelta`,
`rotateTowards current target maxDelta` moves from `current` by a wrapped
displacement of absolute value at most `maxDelta`, in the direction of the
shortest wrapped path `wrapAngle (target - current)` without overshooting
it, and the result is canonicalized into `(-pi, pi]`. -/
theorem rotateTowards_bounded (current target maxDelta : ℝ) (h : 0 ≤ maxDelta) :
    |wrapAngle (rotateTowards current target maxDelta - current)| ≤ maxDelta ∧
    (0 ≤ wrapAngle (target - current) →
      0 ≤ wrapAngle (rotateTowards current target maxDelta - current) ∧
      wrapAngle (rotateTowards current target maxDelta - current) ≤
        wrapAngle (target - current)) ∧
    (wrapAngle (target - current) ≤ 0 →
      wrapAngle (target - current) ≤
        wrapAngle (rotateTowards current target maxDelta - current) ∧
      wrapAngle (rotateTowards current target maxDelta - current) ≤ 0) ∧
    (-Real.pi < rotateTowards current target maxDelta ∧
      rotateTowards current target maxDelta ≤ Real.pi) := by
  have hpi := Real.pi_pos
  set d := wrapAngle (target - current) with hd
  have hd1 : -Real.pi < d := wrapAngle_gt _
  have hd2 : d ≤ Real.pi := wrapAngle_le _
  set c := max (-maxDelta) (min maxDelta d) with hc
  have hc_le_pi : c ≤ Real.pi := by
    apply max_le
    · linarith
    · exact le_trans (min_le_right _ _) hd2
  have hc_gt : -Real.pi < c := by
    have h1 : -Real.pi < min maxDelta d := lt_min (by linarith) hd1
    exact lt_of_lt_of_le h1 (le_max_right _ _)
  have hrw : rotateTowards current target maxDelta = wrapAngle (current + c) := by
    rw [rotateTowards, ← hd, ← hc]
  have hkey : wrapAngle (rotateTowards current target maxDelta - current) = c := by
    obtain ⟨k, hk⟩ := wrapAngle_sub_int (current + c)
    rw [hrw, hk]
    have harg : current + c - 2 * Real.pi * k - current = c + 2 * Real.pi * (-k : ℤ) := by
      push_cast
      ring
    rw [harg, wrapAngle_add_int_mul]
    exact wrapAngle_eq_self hc_gt hc_le_pi
  refine ⟨?_, ?_, ?_, ?_⟩
  · rw [hkey, abs_le]
    constructor
    · exact le_max_left _ _
    · exact max_le (by linarith) (min_le_left _ _)
  · intro hd0
    rw [hkey]
    constructor
    · have : (0 : ℝ) ≤ min maxDelta d := le_min h hd0
      exact le_trans this (le_max_right _ _)
    · exact max_le (by linarith) (min_le_right _ _)
  · intro hd0
    rw [hkey]
    constructor
    · have : min maxDelta d = d := min_eq_right (by linarith)
      rw [← this]
      exact le_max_right _ _
    · exact max_le (by linarith) (by rw [min_eq_right (by linarith : d ≤ maxDelta)]; exact hd0)
  · rw [hrw]
    exact ⟨wrapAngle_gt _, wrapAngle_le _⟩

/-- A player-record rewrite that keeps ids fixed commutes with `find?` on an
id predicate. -/
theorem find?_id_map (g : Player → Player) (hg : ∀ p, (g p).id = p.id)
    (l : List Player) (a : String) :
    ((l.map g).find? fun p => p.id ≠ a) = (l.find? fun p => p.id ≠ a).map g := by
  rw [List.find?_map]
  congr 1
  have hfun : ((fun p : Player => decide (p.id ≠ a)) ∘ g)
      = fun p : Player => decide (p.id ≠ a) := by
    funext q
    simp [hg, Function.comp]
  rw [hfun]

/-- Composing an id-preserving rewrite under `find?` does not change the
projected winner id. -/
theorem find?_id_map_proj (g : Player → Player) (hg : ∀ p, (g p).id = p.id)
    (l : List Player) (a : String) :
    (((l.map g).find? fun p => p.id ≠ a).map Player.id)
      = ((l.find? fun p => p.id ≠ a).map Player.id) := by
  rw [find?_id_map g hg]
  cases l.find? fun p => p.id ≠ a with
  | none => rfl
  | some p => simp [hg]

/-- C1: whenever the eating resolution consumes a food and the eater's
resulting fullness reaches `MAX_FULLNESS`, the same call sets `gameOver`,
clears `started`, records the eater as loser and the first other present
player (if any) as winner, and clears every player's `ready` flag. -/
theorem handleEating_game_over (room : Room) (dt : ℝ) (eater : Player) (food : Food)
    (hev : (foodsLoop dt room.players room.foods).2 = some (eater, food))
    (hfull : MAX_FULLNESS ≤ eater.fullness + food.value) :
    (handleEating room dt).gameOver = true ∧
    (handleEating room dt).started = false ∧
    (handleEating room dt).loserId = some eater.id ∧
    (handleEating room dt).winnerId
      = (room.players.find? fun p => p.id ≠ eater.id).map Player.id ∧
    ∀ p ∈ (handleEating room dt).players, p.ready = false := by
  rcases hfl : foodsLoop dt room.players room.foods with ⟨fs, ev⟩
  rw [hfl] at hev
  simp only at hev
  subst hev
  have hrun : handleEating room dt = consume { room with foods := fs } eater food := by
    unfold handleEating
    rw [hfl]
  rw [hrun]
  unfold consume
  simp only []
  rw [if_pos hfull]
  refine ⟨rfl, rfl, rfl, ?_, ?_⟩
  · cases hhb : food.heldBy with
    | none =>
      simp only [hhb]
      exact find?_id_map_proj _ (fun p => by by_cases h : p.id = eater.id <;> simp [h]) _ _
    | some hid =>
      simp only [hhb]
      rw [find?_id_map_proj _ (fun p => by by_cases h : p.id = hid <;> simp [h])]
      exact find?_id_map_proj _ (fun p => by by_cases h : p.id = eater.id <;> simp [h]) _ _
  · intro p hp
    simp only [List.mem_map] at hp
    obtain ⟨q, _, rfl⟩ := hp
    rfl

/-- Witness for C1: in `rMatch` the cake sits on Alice's mouth with its dwell
timer past the threshold, and its value 100 puts her at the cap. -/
theorem handleEating_game_over_witness :
    (handleEating rMatch DT).gameOver = true ∧
    (handleEating rMatch DT).started = false ∧
    (handleEating rMatch DT).loserId = some pAlice.id ∧
    (handleEating rMatch DT).winnerId
      = (rMatch.players.find? fun p => p.id ≠ pAlice.id).map Player.id ∧
    ∀ p ∈ (handleEating rMatch DT).players, p.ready = false :=
  handleEating_game_over rMatch DT pAlice fCake
    (by norm_num [rMatch, pAlice, pBob, fCake, foodsLoop, playersLoop, inMouth,
      mouthPosition, setTimer, MOUTH_OFFSET_X, MOUTH_OFFSET_Y_LEFT,
      MOUTH_OFFSET_Y_RIGHT, MOUTH_RADIUS, EAT_TIME, DT, TICK_RATE, Real.sqrt_zero,
      show ("left" : String) ≠ "right" by decide])
    (by norm_num [MAX_FULLNESS, pAlice, fCake])

theorem playersLoop_fst_id (dt : ℝ) (ps : List Player) (f : Food) :
    ((playersLoop dt f ps).1).id = f.id := by
  induction ps generalizing f with
  | nil => rfl
  | cons p ps ih =>
    simp only [playersLoop]
    split <;> split
    all_goals first | rfl | exact ih _

theorem foodsLoop_fst_ids (dt : ℝ) (ps : List Player) (fs : List Food) :
    (foodsLoop dt ps fs).1.map Food.id = fs.map Food.id := by
  induction fs with
  | nil => rfl
  | cons f rest ih =>
    rcases h : playersLoop dt f ps with ⟨f2, ev⟩
    have hid : f2.id = f.id := by
      have h0 := playersLoop_fst_id dt ps f
      rw [h] at h0
      simpa using h0
    cases ev with
    | some p => simp [foodsLoop, h, hid]
    | none => simp [foodsLoop, h, hid, ih]

/-- The inner player scan of a food reports an eat exactly when some present
player's updated dwell timer reaches the threshold; `g` is the food as it
stood before the scan (the scan only rewrites already-visited players'
timers, which cannot affect later players when ids are distinct). -/
theorem playersLoop_snd_iff (dt : ℝ) (ps : List Player) :
    ∀ f g : Food, (ps.map Player.id).Nodup → f.x = g.x → f.y = g.y →
      (∀ p ∈ ps, f.mouthTimers p.id = g.mouthTimers p.id) →
      ((playersLoop dt f ps).2.isSome ↔ ∃ p ∈ ps, EAT_TIME ≤ dwellAfter dt p g) := by
  induction ps with
  | nil =>
    intro f g _ _ _ _
    simp [playersLoop]
  | cons p ps ih =>
    intro f g hnd hx hy ht
    simp only [List.map_cons, List.nodup_cons] at hnd
    have hmouth : inMouth p f ↔ inMouth p g := by
      unfold inMouth
      rw [hx, hy]
    have htp : f.mouthTimers p.id = g.mouthTimers p.id := ht p (List.mem_cons_self p ps)
    have hdw : (if inMouth p f then f.mouthTimers p.id + dt else 0) = dwellAfter dt p g := by
      unfold dwellAfter
      by_cases hm : inMouth p g
      · rw [if_pos (hmouth.mpr hm), if_pos hm, htp]
      · rw [if_neg (fun hc => hm (hmouth.mp hc)), if_neg hm]
    simp only [playersLoop]
    by_cases hcase : EAT_TIME ≤ (if inMouth p f then f.mouthTimers p.id + dt else 0)
    · rw [if_pos hcase]
      simp only [Option.isSome_some, true_iff]
      exact ⟨p, List.mem_cons_self p ps, hdw ▸ hcase⟩
    · rw [if_neg hcase]
      have ih' := ih (setTimer f p.id (if inMouth p f then f.mouthTimers p.id + dt else 0)) g
        hnd.2 hx hy (by
          intro q hq
          have hqp : q.id ≠ p.id := by
            intro hc
            exact hnd.1 (hc ▸ List.mem_map_of_mem Player.id hq)
          simp only [setTimer]
          rw [if_neg hqp]
          exact ht q (List.mem_cons_of_mem p hq))
      rw [ih']
      constructor
      · rintro ⟨q, hq, hqt⟩
        exact ⟨q, List.mem_cons_of_mem p hq, hqt⟩
      · rintro ⟨q, hq, hqt⟩
        rcases List.mem_cons.mp hq with hq | hq
        · subst hq
          exact absurd (hdw ▸ hqt) hcase
        · exact ⟨q, hq, hqt⟩

theorem foodsLoop_none_iff (dt : ℝ) (ps : List Player) (fs : List Food) :
    (foodsLoop dt ps fs).2 = none ↔ ∀ f ∈ fs, (playersLoop dt f ps).2 = none := by
  induction fs with
  | nil => simp [foodsLoop]
  | cons f rest ih =>
    rcases h : playersLoop dt f ps with ⟨f2, ev⟩
    cases ev with
    | some p => simp [foodsLoop, h]
    | none => simp [foodsLoop, h, ih]

theorem foodsLoop_eat_mem (dt : ℝ) (ps : List Player) (fs : List Food)
    (p : Player) (f : Food) :
    (foodsLoop dt ps fs).2 = some (p, f) → f ∈ fs := by
  induction fs with
  | nil => simp [foodsLoop]
  | cons g rest ih =>
    rcases h : playersLoop dt g ps with ⟨g2, ev⟩
    cases ev with
    | some q =>
      simp only [foodsLoop, h, Option.some.injEq, Prod.mk.injEq]
      rintro ⟨_, rfl⟩
      exact List.mem_cons_self g rest
    | none =>
      simp only [foodsLoop, h]
      intro hr
      exact List.mem_cons_of_mem g (ih hr)

/-- The outer food scan consumes exactly the first food whose player scan
reports an eat, leaving the foods after it untouched. -/
theorem foodsLoop_first_eat (dt : ℝ) (ps : List Player) (pre : List Food)
    (f : Food) (post : List Food)
    (hpre : ∀ g ∈ pre, (playersLoop dt g ps).2 = none)
    (hf : (playersLoop dt f ps).2.isSome) :
    ∃ p, (foodsLoop dt ps (pre ++ f :: post)).2 = some (p, f) ∧
      (foodsLoop dt ps (pre ++ f :: post)).1
        = (pre.map fun g => (playersLoop dt g ps).1) ++ (playersLoop dt f ps).1 :: post := by
  induction pre with
  | nil =>
    rcases h : playersLoop dt f ps with ⟨f2, ev⟩
    rw [h] at hf
    cases ev with
    | none => simp at hf
    | some p =>
      refine ⟨p, ?_, ?_⟩ <;> simp [foodsLoop, h]
  | cons g pre ih =>
    have hg : (playersLoop dt g ps).2 = none := hpre g (List.mem_cons_self g pre)
    rcases h : playersLoop dt g ps with ⟨g2, ev⟩
    rw [h] at hg
    subst hg
    obtain ⟨p, h1, h2⟩ := ih (fun x hx => hpre x (List.mem_cons_of_mem g hx))
    refine ⟨p, ?_, ?_⟩ <;> simp [foodsLoop, h, h1, h2]

theorem consume_foods (room : Room) (eater : Player) (food : Food) :
    (consume room eater food).foods = room.foods.filter fun f2 => f2.id ≠ food.id := by
  unfold consume
  simp only []
  split <;> rfl

theorem length_filter_ne (l : List Food) (n : ℕ) (hnd : (l.map Food.id).Nodup)
    (hmem : n ∈ l.map Food.id) :
    (l.filter fun g => g.id ≠ n).length + 1 = l.length := by
  induction l with
  | nil => simp at hmem
  | cons g rest ih =>
    simp only [List.map_cons, List.nodup_cons] at hnd
    by_cases hg : g.id = n
    · subst hg
      have hrest : (rest.filter fun h => h.id ≠ g.id) = rest := by
        apply List.filter_eq_self.mpr
        intro h hh
        simp only [ne_eq, decide_eq_true_eq]
        intro hc
        exact hnd.1 (hc ▸ List.mem_map_of_mem Food.id hh)
      simp [List.filter_cons, hrest]
      intro a ha hc
      exact hnd.1 (hc ▸ List.mem_map_of_mem Food.id ha)
    · have hn : n ∈ rest.map Food.id := by
        rcases List.mem_cons.mp hmem with h | h
        · exact absurd h.symm hg
        · exact h
      have hcond : ((g :: rest).filter fun h => h.id ≠ n)
          = g :: (rest.filter fun h => h.id ≠ n) := by
        simp [List.filter_cons, hg]
      rw [hcond]
      have := ih hnd.2 hn
      simp only [List.length_cons]
      omega

theorem foodsLoop_eat_playersLoop (dt : ℝ) (ps : List Player) (fs : List Food)
    (p : Player) (f : Food) :
    (foodsLoop dt ps fs).2 = some (p, f) → (playersLoop dt f ps).2 = some p := by
  induction fs with
  | nil => simp [foodsLoop]
  | cons g rest ih =>
    rcases h : playersLoop dt g ps with ⟨g2, ev⟩
    cases ev with
    | some q =>
      simp only [foodsLoop, h, Option.some.injEq, Prod.mk.injEq]
      rintro ⟨rfl, rfl⟩
      rw [h]
    | none =>
      simp only [foodsLoop, h]
      exact ih

/-- C2: each run of the eating resolution consumes at most one food; no food
is consumed when none qualifies, and otherwise exactly the first food (in
room iteration order) for which some player's updated dwell timer reaches
`EAT_TIME` is removed, the foods after it being left untouched. -/
theorem handleEating_at_most_one (room : Room) (dt : ℝ)
    (hndp : (room.players.map Player.id).Nodup)
    (hndf : (room.foods.map Food.id).Nodup) :
    ((handleEating room dt).foods.length = room.foods.length ∨
      (handleEating room dt).foods.length + 1 = room.foods.length) ∧
    ((∀ f ∈ room.foods, ¬ ∃ p ∈ room.players, EAT_TIME ≤ dwellAfter dt p f) →
      (handleEating room dt).foods.map Food.id = room.foods.map Food.id) ∧
    (∀ pre f post, room.foods = pre ++ f :: post →
      (∃ p ∈ room.players, EAT_TIME ≤ dwellAfter dt p f) →
      (∀ g ∈ pre, ¬ ∃ p ∈ room.players, EAT_TIME ≤ dwellAfter dt p g) →
      ((handleEating room dt).foods.map Food.id = (pre ++ post).map Food.id ∧
        ∀ g ∈ post, g ∈ (handleEating room dt).foods)) := by
  have hiff : ∀ f : Food, ((playersLoop dt f room.players).2.isSome
      ↔ ∃ p ∈ room.players, EAT_TIME ≤ dwellAfter dt p f) :=
    fun f => playersLoop_snd_iff dt room.players f f hndp rfl rfl (fun _ _ => rfl)
  rcases hfl : foodsLoop dt room.players room.foods with ⟨fs, ev⟩
  have hids : fs.map Food.id = room.foods.map Food.id := by
    have h0 := foodsLoop_fst_ids dt room.players room.foods
    rw [hfl] at h0
    exact h0
  cases ev with
  | none =>
    have hrun : handleEating room dt = { room with foods := fs } := by
      unfold handleEating
      rw [hfl]
    have hnone : ∀ g ∈ room.foods, (playersLoop dt g room.players).2 = none := by
      have h0 : (foodsLoop dt room.players room.foods).2 = none := by rw [hfl]
      exact (foodsLoop_none_iff dt room.players room.foods).mp h0
    refine ⟨?_, ?_, ?_⟩
    · left
      rw [hrun]
      have h1 := congrArg List.length hids
      simpa using h1
    · intro _
      rw [hrun]
      exact hids
    · intro pre f post hsplit hq _
      exfalso
      have hf : f ∈ room.foods := by
        rw [hsplit]
        exact List.mem_append_right _ (List.mem_cons_self f post)
      have h1 := (hiff f).mpr hq
      rw [hnone f hf] at h1
      simp at h1
  | some pf =>
    rcases pf with ⟨p, f⟩
    have hev : (foodsLoop dt room.players room.foods).2 = some (p, f) := by rw [hfl]
    have hrun : handleEating room dt = consume { room with foods := fs } p f := by
      unfold handleEating
      rw [hfl]
    have hfoods : (handleEating room dt).foods = fs.filter fun f2 => f2.id ≠ f.id := by
      rw [hrun, consume_foods]
    have hfmem : f ∈ room.foods := foodsLoop_eat_mem dt room.players room.foods p f hev
    have hfid : f.id ∈ fs.map Food.id := by
      rw [hids]
      exact List.mem_map_of_mem Food.id hfmem
    have hndfs : (fs.map Food.id).Nodup := by
      rw [hids]
      exact hndf
    have hlen := length_filter_ne fs f.id hndfs hfid
    have hlenfs : fs.length = room.foods.length := by
      have h1 := congrArg List.length hids
      simpa using h1
    refine ⟨?_, ?_, ?_⟩
    · right
      rw [hfoods]
      omega
    · intro hnoq
      exfalso
      have h1 : (playersLoop dt f room.players).2 = some p :=
        foodsLoop_eat_playersLoop dt room.players room.foods p f hev
      have h2 : (playersLoop dt f room.players).2.isSome := by
        rw [h1]
        rfl
      exact hnoq f hfmem ((hiff f).mp h2)
    · intro pre f' post hsplit hq hpre
      have hpre' : ∀ g ∈ pre, (playersLoop dt g room.players).2 = none := by
        intro g hg
        have h1 : ¬ (playersLoop dt g room.players).2.isSome :=
          fun hs => hpre g hg ((hiff g).mp hs)
        exact Option.not_isSome_iff_eq_none.mp h1
      have hf' : (playersLoop dt f' room.players).2.isSome := (hiff f').mpr hq
      obtain ⟨q, hq1, hq2⟩ := foodsLoop_first_eat dt room.players pre f' post hpre' hf'
      rw [hsplit] at hfl
      have heq : (some (q, f') : Option (Player × Food)) = some (p, f) := by
        rw [← hq1, hfl]
      have hff : f' = f := by
        have h1 := Option.some.inj heq
        exact congrArg Prod.snd h1
      have hfs : fs = (pre.map fun g => (playersLoop dt g room.players).1)
          ++ (playersLoop dt f' room.players).1 :: post := by
        rw [← hq2, hfl]
      -- ids of the rewritten prefix
      have hpreids : (pre.map fun g => (playersLoop dt g room.players).1).map Food.id
          = pre.map Food.id := by
        rw [List.map_map]
        apply List.map_congr_left
        intro g _
        exact playersLoop_fst_id dt room.players g
      have hmidid : ((playersLoop dt f' room.players).1).id = f'.id :=
        playersLoop_fst_id dt room.players f'
      -- f'.id does not occur in pre or post
      have hndsplit := hndf
      rw [hsplit] at hndsplit
      simp only [List.map_append, List.map_cons, List.nodup_append,
        List.nodup_cons] at hndsplit
      obtain ⟨hnd1, ⟨hnotpost, hnd2⟩, hdisj⟩ := hndsplit
      have hprene : ∀ g ∈ (pre.map fun g => (playersLoop dt g room.players).1),
          g.id ≠ f'.id := by
        intro g hg hc
        have hgid : g.id ∈ pre.map Food.id := by
          rw [← hpreids]
          exact List.mem_map_of_mem Food.id hg
        have := hdisj hgid
        simp [hc] at this
      have hpostne : ∀ g ∈ post, g.id ≠ f'.id := by
        intro g hg hc
        exact hnotpost (hc ▸ List.mem_map_of_mem Food.id hg)
      have hfilterpre : ((pre.map fun g => (playersLoop dt g room.players).1).filter
          fun f2 => f2.id ≠ f'.id) = pre.map fun g => (playersLoop dt g room.players).1 := by
        apply List.filter_eq_self.mpr
        intro a ha
        simp only [ne_eq, decide_eq_true_eq]
        exact hprene a ha
      have hfilterpost : (post.filter fun f2 => f2.id ≠ f'.id) = post := by
        apply List.filter_eq_self.mpr
        intro a ha
        simp only [ne_eq, decide_eq_true_eq]
        exact hpostne a ha
      have hcond : (decide (((playersLoop dt f' room.players).1).id ≠ f'.id)) = false := by
        simp [hmidid]
      have hfilter : (fs.filter fun f2 => f2.id ≠ f.id)
          = (pre.map fun g => (playersLoop dt g room.players).1) ++ post := by
        rw [hfs, ← hff, List.filter_append, List.filter_cons, hcond,
          if_neg Bool.false_ne_true, hfilterpre, hfilterpost]
      constructor
      · rw [hfoods, hfilter]
        simp only [List.map_append]
        rw [hpreids]
      · intro g hg
        rw [hfoods, hfilter]
        exact List.mem_append_right _ hg

/-- Witness for C2 on the concrete room `rMatch`. -/
theorem handleEating_at_most_one_witness :
    ((handleEating rMatch DT).foods.length = rMatch.foods.length ∨
      (handleEating rMatch DT).foods.length + 1 = rMatch.foods.length) ∧
    ((∀ f ∈ rMatch.foods, ¬ ∃ p ∈ rMatch.players, EAT_TIME ≤ dwellAfter DT p f) →
      (handleEating rMatch DT).foods.map Food.id = rMatch.foods.map Food.id) ∧
    (∀ pre f post, rMatch.foods = pre ++ f :: post →
      (∃ p ∈ rMatch.players, EAT_TIME ≤ dwellAfter DT p f) →
      (∀ g ∈ pre, ¬ ∃ p ∈ rMatch.players, EAT_TIME ≤ dwellAfter DT p g) →
      ((handleEating rMatch DT).foods.map Food.id = (pre ++ post).map Food.id ∧
        ∀ g ∈ post, g ∈ (handleEating rMatch DT).foods)) :=
  handleEating_at_most_one rMatch DT
    (by simp [rMatch, pAlice, pBob, show ("a" : String) ≠ "b" by decide])
    (by simp [rMatch])

/-- C3: when, after the ready flag of a message is applied, the room holds
exactly two players and all of them are ready, the message handler performs
the full reset-and-start: `started` set, foods cleared, elapsed time and
spawn accumulator zeroed, every player's fullness zeroed and hold cleared,
the left player at `x = 180` vertically centered facing `0`, any other
player at `x = WIDTH - 180` vertically centered facing `pi`. -/
theorem handleReady_starts (room : Room) (pid : String) (b : Bool)
    (hlen : (applyReadyFlag room pid b).players.length = 2)
    (hready : ∀ p ∈ (applyReadyFlag room pid b).players, p.ready = true) :
    (handleReady room pid b).started = true ∧
    (handleReady room pid b).foods = [] ∧
    (handleReady room pid b).time = 0 ∧
    (handleReady room pid b).lastSpawnTime = 0 ∧
    ∀ p ∈ (handleReady room pid b).players,
      p.fullness = 0 ∧ p.holdingFoodId = none ∧
      (p.side = "left" → p.x = 180 ∧ p.y = HEIGHT / 2 ∧ p.angle = 0) ∧
      (p.side ≠ "left" → p.x = WIDTH - 180 ∧ p.y = HEIGHT / 2 ∧ p.angle = Real.pi) := by
  have hall : allReady (applyReadyFlag room pid b) = true := by
    unfold allReady
    rw [if_neg (by omega)]
    exact List.all_eq_true.mpr fun p hp => by rw [hready p hp]
  have hrun : handleReady room pid b = startRoom (applyReadyFlag room pid b) := by
    unfold handleReady
    simp only []
    rw [if_pos hall]
  rw [hrun]
  unfold startRoom
  refine ⟨rfl, rfl, rfl, rfl, ?_⟩
  intro p hp
  simp only [List.mem_map] at hp
  obtain ⟨q, _, rfl⟩ := hp
  unfold startPlayer
  by_cases hside : q.side = "left"
  · rw [if_pos hside]
    exact ⟨rfl, rfl, fun _ => ⟨rfl, rfl, rfl⟩, fun hc => absurd hside hc⟩
  · rw [if_neg hside]
    exact ⟨rfl, rfl, fun hc => absurd hc hside, fun _ => ⟨rfl, rfl, rfl⟩⟩

/-- Witness for C3: in `rLobby`, Bob's ready message completes readiness and
starts the match. -/
theorem handleReady_starts_witness :
    (handleReady rLobby "b" true).started = true ∧
    (handleReady rLobby "b" true).foods = [] ∧
    (handleReady rLobby "b" true).time = 0 ∧
    (handleReady rLobby "b" true).lastSpawnTime = 0 ∧
    ∀ p ∈ (handleReady rLobby "b" true).players,
      p.fullness = 0 ∧ p.holdingFoodId = none ∧
      (p.side = "left" → p.x = 180 ∧ p.y = HEIGHT / 2 ∧ p.angle = 0) ∧
      (p.side ≠ "left" → p.x = WIDTH - 180 ∧ p.y = HEIGHT / 2 ∧ p.angle = Real.pi) :=
  handleReady_starts rLobby "b" true
    (by simp [applyReadyFlag, rLobby, pAlice, pBobUnready, pBob])
    (by simp [applyReadyFlag, rLobby, pAlice, pBobUnready, pBob,
      show ("a" : String) ≠ "b" by decide])

/-- C4 counterexample: in the running room `rRunning` (`started = true`,
`gameOver = false`) a ready message still mutates the room state, so ready
flags are not guarded by the running state. -/
theorem handleReady_running_not_ignored :
    rRunning.started = true ∧ rRunning.gameOver = false ∧
    handleReady rRunning "b" true ≠ rRunning := by
  refine ⟨rfl, rfl, ?_⟩
  intro h
  have h1 := congrArg (fun r => r.players.map Player.ready) h
  simp [handleReady, applyReadyFlag, allReady, startRoom, rRunning,
    pAliceUnready, pBobUnready, pAlice, pBob,
    show ("a" : String) ≠ "b" by decide] at h1

/-- A ready-flag assignment composed with an id- and ready-preserving
rewrite leaves the sender's stored ready flag equal to the message value. -/
theorem find?_ready_after (g : Player → Player) (hgid : ∀ p, (g p).id = p.id)
    (hgready : ∀ p, (g p).ready = p.ready) (l : List Player) (pid : String) (b : Bool)
    (hex : ∃ p ∈ l, p.id = pid) :
    (((l.map fun p => g (if p.id = pid then { p with ready := b } else p)).find?
        fun p => p.id = pid).map Player.ready) = some b := by
  induction l with
  | nil => simp at hex
  | cons p l ih =>
    simp only [List.map_cons, List.find?]
    by_cases hpid : p.id = pid
    · have hcond : (decide ((g (if p.id = pid then { p with ready := b } else p)).id
          = pid)) = true := by
        rw [hgid, if_pos hpid]
        simp [hpid]
      rw [hcond]
      simp [hgready, hpid]
    · have hcond : (decide ((g (if p.id = pid then { p with ready := b } else p)).id
          = pid)) = false := by
        rw [hgid, if_neg hpid]
        simp [hpid]
      rw [hcond]
      apply ih
      rcases hex with ⟨q, hq, hqid⟩
      rcases List.mem_cons.mp hq with rfl | hq2
      · exact absurd hqid hpid
      · exact ⟨q, hq2, hqid⟩

/-- C4 amended: a ready message is processed regardless of the running
state: even while `started = true` and `gameOver = false` it sets the
sender's stored ready flag to the message's boolean (and can trigger the
reset-and-start when it completes readiness). -/
theorem handleReady_running_sets_flag (room : Room) (pid : String) (b : Bool)
    (_hstart : room.started = true) (_hgo : room.gameOver = false)
    (hex : ∃ p ∈ room.players, p.id = pid) :
    (((handleReady room pid b).players.find? fun p => p.id = pid).map Player.ready)
      = some b := by
  unfold handleReady
  simp only []
  split
  · unfold startRoom applyReadyFlag
    simp only [List.map_map, Function.comp]
    exact find?_ready_after startPlayer
      (fun p => by by_cases h : p.side = "left" <;> simp [startPlayer, h])
      (fun p => by by_cases h : p.side = "left" <;> simp [startPlayer, h])
      room.players pid b hex
  · unfold applyReadyFlag
    exact find?_ready_after id (fun _ => rfl) (fun _ => rfl) room.players pid b hex

/-- Witness for the amended C4 on the running room `rRunning`. -/
theorem handleReady_running_sets_flag_witness :
    (((handleReady rRunning "b" true).players.find? fun p => p.id = "b").map
      Player.ready) = some true :=
  handleReady_running_sets_flag rRunning "b" true rfl rfl
    ⟨pBobUnready, by simp [rRunning], rfl⟩

theorem foodsPhysics_length (r : ℕ → ℝ) (dt : ℝ) (fs : List Food) :
    ∀ k, (foodsPhysics r dt fs k).1.length = fs.length := by
  induction fs with
  | nil => intro k; rfl
  | cons f rest ih =>
    intro k
    simp only [foodsPhysics, List.length_cons]
    rw [ih]

theorem foodsPhysics_respawn (r : ℕ → ℝ) (dt : ℝ) (hr : ∀ n, 0 ≤ r n ∧ r n ≤ 1)
    (fs : List Food) :
    ∀ (k i : ℕ) (f : Food), fs[i]? = some f → f.state ≠ "held" →
      HEIGHT + 60 < f.y + (f.vy + GRAVITY * dt) * dt →
      ∃ g, (foodsPhysics r dt fs k).1[i]? = some g ∧ g.id = f.id ∧
        g.y = -20 ∧ g.vy = 0 ∧ 80 ≤ g.x ∧ g.x ≤ 80 + (WIDTH - 160) ∧ |g.vx| ≤ 8 := by
  induction fs with
  | nil =>
    intro k i f h
    simp at h
  | cons f0 rest ih =>
    intro k i f hget hstate hy
    cases i with
    | zero =>
      simp only [List.getElem?_cons_zero, Option.some.injEq] at hget
      subst hget
      have hs : stepFreeFood r dt f0 k
          = ({ f0 with
               x := 80 + r k * (WIDTH - 160), y := -20,
               vx := (r (k + 1) - 0.5) * 16, vy := 0 }, k + 2) := by
        unfold stepFreeFood
        rw [if_neg hstate, if_pos hy]
      have hw : (0 : ℝ) ≤ WIDTH - 160 := by norm_num [WIDTH]
      have h1 := (hr k).1
      have h2 := (hr k).2
      have h3 := (hr (k + 1)).1
      have h4 := (hr (k + 1)).2
      refine ⟨{ f0 with
          x := 80 + r k * (WIDTH - 160), y := -20,
          vx := (r (k + 1) - 0.5) * 16, vy := 0 }, ?_, rfl, rfl, rfl, ?_, ?_, ?_⟩
      · simp only [foodsPhysics, List.getElem?_cons_zero, Option.some.injEq]
        rw [hs]
      · show (80 : ℝ) ≤ 80 + r k * (WIDTH - 160)
        nlinarith
      · show (80 : ℝ) + r k * (WIDTH - 160) ≤ 80 + (WIDTH - 160)
        nlinarith
      · show |(r (k + 1) - 0.5) * 16| ≤ 8
        rw [abs_le]
        constructor <;> nlinarith
    | succ n =>
      simp only [List.getElem?_cons_succ] at hget
      simp only [foodsPhysics, List.getElem?_cons_succ]
      exact ih _ n f hget hstate hy

/-- C7: the free-food physics update removes no food: the count is
unchanged, and every non-held food whose integrated `y` exceeds
`HEIGHT + 60` is recycled in place to `y = -20` with a fresh random `x`
inside the horizontal margin, a small random horizontal velocity and zero
vertical velocity. -/
theorem updateFoods_recycles (r : ℕ → ℝ) (k : ℕ) (room : Room) (dt : ℝ)
    (hr : ∀ n, 0 ≤ r n ∧ r n ≤ 1) :
    (updateFoods r k room dt).1.foods.length = room.foods.length ∧
    ∀ (i : ℕ) (f : Food), room.foods[i]? = some f → f.state ≠ "held" →
      HEIGHT + 60 < f.y + (f.vy + GRAVITY * dt) * dt →
      ∃ g, (updateFoods r k room dt).1.foods[i]? = some g ∧ g.id = f.id ∧
        g.y = -20 ∧ g.vy = 0 ∧ 80 ≤ g.x ∧ g.x ≤ 80 + (WIDTH - 160) ∧ |g.vx| ≤ 8 := by
  constructor
  · exact foodsPhysics_length r dt room.foods k
  · intro i f hget hstate hy
    exact foodsPhysics_respawn r dt hr room.foods k i f hget hstate hy

/-- Witness for C7 on `rFall` with the constant-zero random oracle. -/
theorem updateFoods_recycles_witness :
    (updateFoods (fun _ => 0) 0 rFall DT).1.foods.length = rFall.foods.length ∧
    ∀ (i : ℕ) (f : Food), rFall.foods[i]? = some f → f.state ≠ "held" →
      HEIGHT + 60 < f.y + (f.vy + GRAVITY * DT) * DT →
      ∃ g, (updateFoods (fun _ => 0) 0 rFall DT).1.foods[i]? = some g ∧ g.id = f.id ∧
        g.y = -20 ∧ g.vy = 0 ∧ 80 ≤ g.x ∧ g.x ≤ 80 + (WIDTH - 160) ∧ |g.vx| ≤ 8 :=
  updateFoods_recycles (fun _ => 0) 0 rFall DT (fun _ => ⟨le_refl 0, zero_le_one⟩)

theorem handleClose_eq (room : Room) (p : Player) :
    handleClose room p
      = resetGameIfNeeded
          { room with
            players := room.players.filter fun q => q.id ≠ p.id,
            foods := match p.holdingFoodId with
              | some fid => freeFirst fid room.foods
              | none => room.foods } := rfl

theorem freeFirst_idem (fid : ℕ) (l : List Food) :
    freeFirst fid (freeFirst fid l) = freeFirst fid l := by
  induction l with
  | nil => rfl
  | cons f rest ih =>
    by_cases h : f.id = fid
    · have h1 : freeFirst fid (f :: rest)
          = { f with state := "free", heldBy := none } :: rest := by
        unfold freeFirst
        rw [if_pos h]
      rw [h1]
      unfold freeFirst
      rw [if_pos (show ({ f with state := "free", heldBy := none } : Food).id = fid from h)]
    · have hcons : ∀ tail, freeFirst fid (f :: tail) = f :: freeFirst fid tail := by
        intro tail
        simp only [freeFirst]
        rw [if_neg h]
      rw [hcons, hcons, ih]

theorem resetGameIfNeeded_players_len (r : Room) :
    (resetGameIfNeeded r).players.length = r.players.length := by
  unfold resetGameIfNeeded
  split
  · simp
  · rfl

theorem resetGameIfNeeded_foods (r : Room) :
    (resetGameIfNeeded r).foods = if r.players.length < 2 then [] else r.foods := by
  unfold resetGameIfNeeded
  by_cases h : r.players.length < 2
  · rw [if_pos h, if_pos h]
  · rw [if_neg h, if_neg h]

theorem resetGameIfNeeded_players (r : Room) :
    (resetGameIfNeeded r).players
      = if r.players.length < 2 then
          r.players.map fun p => { p with ready := false, holdingFoodId := none }
        else r.players := by
  unfold resetGameIfNeeded
  by_cases h : r.players.length < 2
  · rw [if_pos h, if_pos h]
  · rw [if_neg h, if_neg h]

theorem resetGameIfNeeded_idem (r : Room) :
    resetGameIfNeeded (resetGameIfNeeded r) = resetGameIfNeeded r := by
  by_cases h : r.players.length < 2
  · have hA : resetGameIfNeeded r
        = { r with
            gameOver := false, winnerId := none, loserId := none,
            time := 0, started := false, foods := [], nextFoodId := 1,
            players := r.players.map fun p =>
              { p with ready := false, holdingFoodId := none } } := by
      unfold resetGameIfNeeded
      rw [if_pos h]
    rw [hA]
    unfold resetGameIfNeeded
    rw [if_pos (by simpa using h)]
    congr 1
    rw [List.map_map]
    exact List.map_congr_left fun p _ => rfl
  · have hA : resetGameIfNeeded r = r := by
      unfold resetGameIfNeeded
      rw [if_neg h]
    rw [hA, hA]

theorem handleClose_players_ne (room : Room) (p : Player) :
    ∀ q ∈ (handleClose room p).players, q.id ≠ p.id := by
  intro q hq
  rw [handleClose_eq, resetGameIfNeeded_players] at hq
  split at hq
  · simp only [List.mem_map] at hq
    obtain ⟨q0, hq0, rfl⟩ := hq
    have := List.mem_filter.mp hq0
    simpa using this.2
  · have := List.mem_filter.mp hq
    simpa using this.2

theorem length_filter_ne_pid (l : List Player) (s : String)
    (hnd : (l.map Player.id).Nodup) (hmem : s ∈ l.map Player.id) :
    (l.filter fun q => q.id ≠ s).length + 1 = l.length := by
  induction l with
  | nil => simp at hmem
  | cons g rest ih =>
    simp only [List.map_cons, List.nodup_cons] at hnd
    by_cases hg : g.id = s
    · subst hg
      have hrest : (rest.filter fun h => h.id ≠ g.id) = rest := by
        apply List.filter_eq_self.mpr
        intro h hh
        simp only [ne_eq, decide_eq_true_eq]
        intro hc
        exact hnd.1 (hc ▸ List.mem_map_of_mem Player.id hh)
      simp [List.filter_cons, hrest]
      intro a ha hc
      exact hnd.1 (hc ▸ List.mem_map_of_mem Player.id ha)
    · have hn : s ∈ rest.map Player.id := by
        rcases List.mem_cons.mp hmem with h | h
        · exact absurd h.symm hg
        · exact h
      have hcond : ((g :: rest).filter fun h => h.id ≠ s)
          = g :: (rest.filter fun h => h.id ≠ s) := by
        simp [List.filter_cons, hg]
      rw [hcond]
      have := ih hnd.2 hn
      simp only [List.length_cons]
      omega

/-- C8: the close handling is idempotent — a second application for the same
player leaves the room state unchanged, does not fail (it is a total
function), and the player count decreases only once. -/
theorem handleClose_idempotent (room : Room) (p : Player)
    (hmem : p ∈ room.players) (hnd : (room.players.map Player.id).Nodup) :
    handleClose (handleClose room p) p = handleClose room p ∧
    (handleClose room p).players.length + 1 = room.players.length ∧
    (handleClose (handleClose room p) p).players.length
      = (handleClose room p).players.length := by
  have hfix : resetGameIfNeeded (handleClose room p) = handleClose room p := by
    rw [handleClose_eq room p]
    exact resetGameIfNeeded_idem _
  have hfilter : ((handleClose room p).players.filter fun q => q.id ≠ p.id)
      = (handleClose room p).players := by
    apply List.filter_eq_self.mpr
    intro a ha
    simp only [ne_eq, decide_eq_true_eq]
    exact handleClose_players_ne room p a ha
  have hfoods : (match p.holdingFoodId with
      | some fid => freeFirst fid (handleClose room p).foods
      | none => (handleClose room p).foods) = (handleClose room p).foods := by
    cases hh : p.holdingFoodId with
    | none => rfl
    | some fid =>
      have h1 : (handleClose room p).foods
          = if (room.players.filter fun q => q.id ≠ p.id).length < 2 then []
            else freeFirst fid room.foods := by
        rw [handleClose_eq, resetGameIfNeeded_foods]
        simp only [hh]
      rw [h1]
      by_cases hl : (room.players.filter fun q => q.id ≠ p.id).length < 2
      · rw [if_pos hl]
        rfl
      · rw [if_neg hl]
        exact freeFirst_idem fid room.foods
  have hidem : handleClose (handleClose room p) p = handleClose room p := by
    rw [handleClose_eq (handleClose room p) p, hfilter, hfoods]
    exact hfix
  have hlen1 : (handleClose room p).players.length + 1 = room.players.length := by
    rw [handleClose_eq, resetGameIfNeeded_players_len]
    exact length_filter_ne_pid room.players p.id hnd (List.mem_map_of_mem Player.id hmem)
  exact ⟨hidem, hlen1, by rw [hidem]⟩

/-- Witness for C8: Alice leaving `rMatch` twice. -/
theorem handleClose_idempotent_witness :
    handleClose (handleClose rMatch pAlice) pAlice = handleClose rMatch pAlice ∧
    (handleClose rMatch pAlice).players.length + 1 = rMatch.players.length ∧
    (handleClose (handleClose rMatch pAlice) pAlice).players.length
      = (handleClose rMatch pAlice).players.length :=
  handleClose_idempotent rMatch pAlice (by simp [rMatch])
    (by simp [rMatch, pAlice, pBob, show ("a" : String) ≠ "b" by decide])

theorem easeFirst_ids (p : Player) (fid : ℕ) (l : List Food) :
    (easeFirst p fid l).map Food.id = l.map Food.id := by
  induction l with
  | nil => rfl
  | cons f rest ih =>
    simp only [easeFirst]
    split
    · simp [easeHeld]
    · simp [ih]

theorem heldStep_foods_ids (q : Player) (foods : List Food) :
    ((heldStep q foods).2).map Food.id = foods.map Food.id := by
  cases hh : q.holdingFoodId with
  | none => simp [heldStep, hh]
  | some fid =>
    cases hf : foods.find? fun f => f.id = fid with
    | none => simp [heldStep, hh, hf]
    | some f => simp [heldStep, hh, hf, easeFirst_ids]

theorem heldStep_fst_id (q : Player) (foods : List Food) :
    ((heldStep q foods).1).id = q.id := by
  cases hh : q.holdingFoodId with
  | none => simp [heldStep, hh]
  | some fid =>
    cases hf : foods.find? fun f => f.id = fid with
    | none => simp [heldStep, hh, hf]
    | some f => simp [heldStep, hh, hf]

theorem heldLoop_foods_ids (ps : List Player) :
    ∀ foods : List Food, ((heldLoop ps foods).2).map Food.id = foods.map Food.id := by
  induction ps with
  | nil => intro foods; rfl
  | cons q qs ih =>
    intro foods
    simp only [heldLoop]
    rw [ih, heldStep_foods_ids]

theorem heldLoop_find (p : Player) (fid : ℕ) (hhold : p.holdingFoodId = some fid)
    (ps : List Player) :
    ∀ foods : List Food, (ps.map Player.id).Nodup → p ∈ ps →
      (∀ f ∈ foods, f.id ≠ fid) →
      ((heldLoop ps foods).1.find? fun q => q.id = p.id)
        = some { p with holdingFoodId := none } := by
  induction ps with
  | nil =>
    intro foods _ hm
    simp at hm
  | cons q qs ih =>
    intro foods hnd hm hdang
    simp only [List.map_cons, List.nodup_cons] at hnd
    rcases List.mem_cons.mp hm with rfl | hm2
    · have hfind : (foods.find? fun f => f.id = fid) = none := by
        apply List.find?_eq_none.mpr
        intro f hf
        simp [hdang f hf]
      have hstep : heldStep p foods = ({ p with holdingFoodId := none }, foods) := by
        simp only [heldStep, hhold, hfind]
      simp only [heldLoop, hstep, List.find?]
      simp
    · have hqp : q.id ≠ p.id := by
        intro hc
        exact hnd.1 (hc ▸ List.mem_map_of_mem Player.id hm2)
      have hdang2 : ∀ f ∈ (heldStep q foods).2, f.id ≠ fid := by
        intro f hf
        have hin : f.id ∈ ((heldStep q foods).2).map Food.id :=
          List.mem_map_of_mem Food.id hf
        rw [heldStep_foods_ids] at hin
        obtain ⟨f0, hf0, hid⟩ := List.mem_map.mp hin
        rw [← hid]
        exact hdang f0 hf0
      simp only [heldLoop, List.find?]
      have hcond : (decide (((heldStep q foods).1).id = p.id)) = false := by
        simp [heldStep_fst_id, hqp]
      rw [hcond]
      exact ih (heldStep q foods).2 hnd.2 hm2 hdang2

/-- C9: when a player's `holdingFoodId` refers to a food id absent from the
room's food collection, the held-food tracking step clears exactly that
reference: the player's entry is healed (all other fields intact), no food
is added or removed, and in a room with only that player nothing else
changes at all. -/
theorem updateHeldFoods_heals (room : Room) (p : Player) (fid : ℕ)
    (hmem : p ∈ room.players) (hnd : (room.players.map Player.id).Nodup)
    (hhold : p.holdingFoodId = some fid)
    (hdangling : ∀ f ∈ room.foods, f.id ≠ fid) :
    ((updateHeldFoods room).players.find? fun q => q.id = p.id)
      = some { p with holdingFoodId := none } ∧
    (updateHeldFoods room).foods.map Food.id = room.foods.map Food.id ∧
    (room.players = [p] →
      updateHeldFoods room
        = { room with players := [{ p with holdingFoodId := none }] }) := by
  refine ⟨?_, ?_, ?_⟩
  · exact heldLoop_find p fid hhold room.players room.foods hnd hmem hdangling
  · exact heldLoop_foods_ids room.players room.foods
  · intro hps
    have hfind : (room.foods.find? fun f => f.id = fid) = none := by
      apply List.find?_eq_none.mpr
      intro f hf
      simp [hdangling f hf]
    have hstep : heldStep p room.foods = ({ p with holdingFoodId := none }, room.foods) := by
      simp only [heldStep, hhold, hfind]
    unfold updateHeldFoods
    rw [hps]
    simp only [heldLoop, hstep]

/-- Witness for C9 on `rDangling`. -/
theorem updateHeldFoods_heals_witness :
    ((updateHeldFoods rDangling).players.find? fun q => q.id = pHolder.id)
      = some { pHolder with holdingFoodId := none } ∧
    (updateHeldFoods rDangling).foods.map Food.id = rDangling.foods.map Food.id ∧
    (rDangling.players = [pHolder] →
      updateHeldFoods rDangling
        = { rDangling with players := [{ pHolder with holdingFoodId := none }] }) :=
  updateHeldFoods_heals rDangling pHolder 9 (by simp [rDangling])
    (by simp [rDangling, pHolder, pAlice]) rfl (by simp [rDangling])

/-- An id-keyed record rewrite applied to a present player is what `find?`
by that id returns afterwards (ids unique). -/
theorem find?_update_map (l : List Player) (p : Player) (u : Player → Player)
    (hu : ∀ q, (u q).id = q.id) (hmem : p ∈ l)
    (hnd : (l.map Player.id).Nodup) :
    ((l.map fun q => if q.id = p.id then u q else q).find? fun q => q.id = p.id)
      = some (u p) := by
  induction l with
  | nil => simp at hmem
  | cons q qs ih =>
    simp only [List.map_cons, List.nodup_cons] at hnd
    rcases List.mem_cons.mp hmem with rfl | hm2
    · simp only [List.map_cons, List.find?]
      simp [hu]
    · have hqp : q.id ≠ p.id := fun hc => hnd.1 (hc ▸ List.mem_map_of_mem Player.id hm2)
      simp only [List.map_cons, List.find?]
      simp only [hqp, if_false]
      simpa using ih hm2 hnd.2

theorem pickupScan_first (p : Player) (pre : List Food) (c : Food) (post : List Food)
    (hpre : ∀ f ∈ pre, ¬ (f.state = "free" ∧ isInCone p f = true))
    (hc : c.state = "free" ∧ isInCone p c = true) :
    pickupScan p (pre ++ c :: post) = some (pre ++ pickedUp c p.id :: post, c.id) := by
  induction pre with
  | nil =>
    simp only [List.nil_append, pickupScan]
    rw [if_pos hc]
  | cons g pre ih =>
    have hg := hpre g (List.mem_cons_self g pre)
    have ih' : pickupScan p (pre.append (c :: post))
        = some (pre ++ pickedUp c p.id :: post, c.id) :=
      ih fun f hf => hpre f (List.mem_cons_of_mem g hf)
    simp only [List.cons_append, pickupScan]
    rw [if_neg hg, ih']

/-- C5: for a player holding nothing, the pickup step takes the first food in
room iteration order that is free and within the cone test; that food becomes
held by the player with cleared dwell timers, the player's `holdingFoodId` is
set to its id, every other food and player entry is untouched (so at most one
pickup happens), and the cone test holds exactly when the food is within
`CONE_RADIUS` of the tip and either within the point-blank
`PICKUP_CLOSE_RADIUS` (regardless of angle) or within the angular half-width
`CONE_HALF_ANGLE` of the facing angle. -/
theorem tryPickup_first_match (room : Room) (p : Player)
    (pre : List Food) (c : Food) (post : List Food)
    (hmem : p ∈ room.players) (hhold : p.holdingFoodId = none)
    (hsplit : room.foods = pre ++ c :: post)
    (hc : c.state = "free" ∧ isInCone p c = true)
    (hpre : ∀ f ∈ pre, ¬ (f.state = "free" ∧ isInCone p f = true))
    (hndp : (room.players.map Player.id).Nodup) :
    (tryPickup room p).foods = pre ++ pickedUp c p.id :: post ∧
    (((tryPickup room p).players.find? fun q => q.id = p.id)
      = some { p with holdingFoodId := some c.id }) ∧
    (∀ q ∈ (tryPickup room p).players, q.id ≠ p.id → q ∈ room.players) ∧
    (∀ f : Food, isInCone p f = true ↔
      (distTip p f ≤ CONE_RADIUS ∧
        (distTip p f ≤ PICKUP_CLOSE_RADIUS ∨
          |wrapAngle (atan2 (f.y - (tipPosition p).2) (f.x - (tipPosition p).1)
            - p.angle)| ≤ CONE_HALF_ANGLE))) := by
  have hrun : tryPickup room p
      = { room with
          foods := pre ++ pickedUp c p.id :: post,
          players := room.players.map fun q =>
            if q.id = p.id then { q with holdingFoodId := some c.id } else q } := by
    unfold tryPickup
    rw [hhold]
    simp only [Option.isSome_none]
    rw [if_neg Bool.false_ne_true, hsplit, pickupScan_first p pre c post hpre hc]
  refine ⟨?_, ?_, ?_, ?_⟩
  · rw [hrun]
  · rw [hrun]
    exact find?_update_map room.players p _ (fun q => rfl) hmem hndp
  · intro q hq hqn
    rw [hrun] at hq
    simp only [List.mem_map] at hq
    obtain ⟨q0, hq0, rfl⟩ := hq
    by_cases h : q0.id = p.id
    · rw [if_pos h] at hqn ⊢
      exact absurd h hqn
    · rw [if_neg h]
      rw [if_neg h] at hqn
      exact hq0
  · intro f
    unfold isInCone distTip
    by_cases h1 : CONE_RADIUS < Real.sqrt ((f.x - (tipPosition p).1) ^ 2
        + (f.y - (tipPosition p).2) ^ 2)
    · rw [if_pos h1]
      exact iff_of_false (by simp) fun hconj => absurd hconj.1 (not_le.mpr h1)
    · by_cases h2 : Real.sqrt ((f.x - (tipPosition p).1) ^ 2
          + (f.y - (tipPosition p).2) ^ 2) ≤ PICKUP_CLOSE_RADIUS
      · rw [if_neg h1, if_pos h2]
        exact iff_of_true rfl ⟨not_lt.mp h1, Or.inl h2⟩
      · rw [if_neg h1, if_neg h2]
        rw [decide_eq_true_eq]
        constructor
        · intro hx
          exact ⟨not_lt.mp h1, Or.inr hx⟩
        · intro hconj
          exact hconj.2.resolve_left h2

/-- Witness for C5: Alice picks up the snack resting on her chopstick tip. -/
theorem tryPickup_first_match_witness :
    (tryPickup rPickup pAlice).foods = [] ++ pickedUp fSnack pAlice.id :: [] ∧
    (((tryPickup rPickup pAlice).players.find? fun q => q.id = pAlice.id)
      = some { pAlice with holdingFoodId := some fSnack.id }) ∧
    (∀ q ∈ (tryPickup rPickup pAlice).players, q.id ≠ pAlice.id → q ∈ rPickup.players) ∧
    (∀ f : Food, isInCone pAlice f = true ↔
      (distTip pAlice f ≤ CONE_RADIUS ∧
        (distTip pAlice f ≤ PICKUP_CLOSE_RADIUS ∨
          |wrapAngle (atan2 (f.y - (tipPosition pAlice).2) (f.x - (tipPosition pAlice).1)
            - pAlice.angle)| ≤ CONE_HALF_ANGLE))) :=
  tryPickup_first_match rPickup pAlice [] fSnack []
    (by simp [rPickup]) rfl (by simp [rPickup])
    (by
      refine ⟨rfl, ?_⟩
      norm_num [isInCone, tipPosition, fSnack, pAlice, CHOPSTICK_LENGTH,
        CONE_RADIUS, PICKUP_CLOSE_RADIUS, Real.cos_zero, Real.sin_zero,
        Real.sqrt_zero])
    (by simp)
    (by simp [rPickup, pAlice, pBob, show ("a" : String) ≠ "b" by decide])

/-- C10 counterexample: a boolean `aim` field (not a number) still replaces
the stored aim: in `rAim` the stored aim `2` becomes `Number(true) = 1`. -/
theorem handleInput_bool_aim_updates :
    (∀ x : ℝ, msgBoolAim.aim ≠ JSVal.vnum x) ∧
    rAim.started = true ∧
    (((rAim.players.find? fun q => q.id = "a").map fun q => q.input.aim) = some 2) ∧
    (((handleInput rAim "a" msgBoolAim).players.find? fun q => q.id = "a").map
      fun q => q.input.aim) = some 1 := by
  refine ⟨?_, rfl, ?_, ?_⟩
  · intro x
    simp [msgBoolAim]
  · simp [rAim, pAim, pAlice]
  · norm_num [handleInput, rAim, pAim, pAlice, numOr, toNumber, msgBoolAim,
      List.find?]

/-- C10 amended: while the room is started, an input message's aim field
updates the stored aim exactly according to the JS `Number(msg.aim) ||`
coercion: a field coercing to NaN or 0 leaves the stored aim unchanged, and
any field coercing to a nonzero number — numbers, but also non-number values
such as booleans or numeric strings — replaces it with that coercion. -/
theorem handleInput_aim_coercion (room : Room) (p : Player) (m : InputMsg)
    (hstart : room.started = true) (hmem : p ∈ room.players)
    (hnd : (room.players.map Player.id).Nodup) :
    ((toNumber m.aim = none ∨ toNumber m.aim = some 0) →
      (((handleInput room p.id m).players.find? fun q => q.id = p.id).map
        fun q => q.input.aim) = some p.input.aim) ∧
    (∀ x : ℝ, toNumber m.aim = some x → x ≠ 0 →
      (((handleInput room p.id m).players.find? fun q => q.id = p.id).map
        fun q => q.input.aim) = some x) := by
  have hrun : handleInput room p.id m
      = { room with players := room.players.map fun q =>
          if q.id = p.id then
            { q with input :=
              { moveX := numOr m.moveX 0, moveY := numOr m.moveY 0,
                aim := numOr m.aim q.input.aim, release := m.release } }
          else q } := by
    unfold handleInput
    rw [if_neg (by simp [hstart])]
  have hfind : (((handleInput room p.id m).players.find? fun q => q.id = p.id).map
      fun q => q.input.aim) = some (numOr m.aim p.input.aim) := by
    rw [hrun]
    rw [find?_update_map room.players p
      (fun q => { q with input :=
        { moveX := numOr m.moveX 0, moveY := numOr m.moveY 0,
          aim := numOr m.aim q.input.aim, release := m.release } })
      (fun q => rfl) hmem hnd]
    rfl
  constructor
  · intro hfb
    rw [hfind]
    rcases hfb with h | h
    · rw [numOr, h]
    · rw [numOr, h]
      simp
  · intro x hx hxne
    rw [hfind, numOr, hx]
    simp [hxne]

/-- Witness for the amended C10: a `null` aim field (coercing to 0) leaves
Alice's stored aim `2` unchanged. -/
theorem handleInput_aim_coercion_witness :
    ((toNumber (JSVal.vnull) = none ∨ toNumber (JSVal.vnull) = some 0) →
      (((handleInput rAim pAim.id
          { moveX := JSVal.vnull, moveY := JSVal.vnull, aim := JSVal.vnull,
            release := false }).players.find? fun q => q.id = pAim.id).map
        fun q => q.input.aim) = some pAim.input.aim) ∧
    (∀ x : ℝ, toNumber (JSVal.vnull) = some x → x ≠ 0 →
      (((handleInput rAim pAim.id
          { moveX := JSVal.vnull, moveY := JSVal.vnull, aim := JSVal.vnull,
            release := false }).players.find? fun q => q.id = pAim.id).map
        fun q => q.input.aim) = some x) :=
  handleInput_aim_coercion rAim pAim
    { moveX := JSVal.vnull, moveY := JSVal.vnull, aim := JSVal.vnull,
      release := false }
    rfl (by simp [rAim]) (by simp [rAim])

/-- Witness for C6 at `current = 0`, `target = 1`, `maxDelta = 2`. -/
theorem rotateTowards_bounded_witness :
    (0 : ℝ) ≤ 2 ∧
    (|wrapAngle (rotateTowards 0 1 2 - 0)| ≤ 2 ∧
    (0 ≤ wrapAngle (1 - 0) →
      0 ≤ wrapAngle (rotateTowards 0 1 2 - 0) ∧
      wrapAngle (rotateTowards 0 1 2 - 0) ≤ wrapAngle (1 - 0)) ∧
    (wrapAngle (1 - 0) ≤ 0 →
      wrapAngle (1 - 0) ≤ wrapAngle (rotateTowards 0 1 2 - 0) ∧
      wrapAngle (rotateTowards 0 1 2 - 0) ≤ 0) ∧
    (-Real.pi < rotateTowards 0 1 2 ∧ rotateTowards 0 1 2 ≤ Real.pi)) :=
  ⟨zero_le_two, rotateTowards_bounded 0 1 2 zero_le_two⟩

end

end HF
